import Mathlib

/-!
Verification of the order-book reconciliation and trade-normalization
adapters for two exchanges: dYdX (offset-tagged incremental deltas) and
Upbit (periodic full-book replacement).

The embedding models the mutable Python dictionaries of the adapters as
association lists with Python-dict semantics: assignment replaces the
value in place when the key exists and appends otherwise; deletion
removes the entry; lookup of a missing key in a raised context is a
key-lookup error, modelled with Except.
-/

/-- Python dict assignment d[k] = v: replace in place when the key is
present, append otherwise. -/
def setEntry {κ α : Type} [DecidableEq κ] (k : κ) (v : α) : List (κ × α) → List (κ × α)
  | [] => [(k, v)]
  | (k2, v2) :: rest => if k2 = k then (k, v) :: rest else (k2, v2) :: setEntry k v rest

/-- Python dict deletion del d[k]: drop the (unique) entry for the key. -/
def eraseEntry {κ α : Type} [DecidableEq κ] (k : κ) : List (κ × α) → List (κ × α)
  | [] => []
  | (k2, v2) :: rest => if k2 = k then rest else (k2, v2) :: eraseEntry k rest

/-- Python dict lookup d[k] / membership test k in d. -/
def lookupEntry {κ α : Type} [DecidableEq κ] (k : κ) : List (κ × α) → Option α
  | [] => none
  | (k2, v) :: rest => if k2 = k then some v else lookupEntry k rest

theorem lookupEntry_setEntry_self {κ α : Type} [DecidableEq κ] (k : κ) (v : α)
    (l : List (κ × α)) : lookupEntry k (setEntry k v l) = some v := by
  induction l with
  | nil => simp [setEntry, lookupEntry]
  | cons hd tl ih =>
    obtain ⟨k2, v2⟩ := hd
    by_cases h : k2 = k
    · simp [setEntry, h, lookupEntry]
    · simp [setEntry, h, lookupEntry, ih]

theorem lookupEntry_setEntry_ne {κ α : Type} [DecidableEq κ] {k q : κ} (v : α)
    (l : List (κ × α)) (hne : q ≠ k) :
    lookupEntry q (setEntry k v l) = lookupEntry q l := by
  have hkq : ¬ k = q := fun h => hne h.symm
  induction l with
  | nil => simp [setEntry, lookupEntry, hkq]
  | cons hd tl ih =>
    obtain ⟨k2, v2⟩ := hd
    by_cases h : k2 = k
    · subst h
      simp [setEntry, lookupEntry, hkq]
    · by_cases h2 : k2 = q
      · subst h2
        simp [setEntry, h, lookupEntry]
      · simp [setEntry, h, lookupEntry, h2, ih]

theorem lookupEntry_setEntry_isSome {κ α : Type} [DecidableEq κ] (k q : κ) (v : α)
    (l : List (κ × α)) (h : (lookupEntry q l).isSome) :
    (lookupEntry q (setEntry k v l)).isSome := by
  by_cases hq : q = k
  · subst hq
    simp [lookupEntry_setEntry_self]
  · rw [lookupEntry_setEntry_ne v l hq]
    exact h

theorem setEntry_eq_of_lookup_eq {κ α : Type} [DecidableEq κ] (k : κ) (v : α)
    (l : List (κ × α)) (h : lookupEntry k l = some v) : setEntry k v l = l := by
  induction l with
  | nil => simp [lookupEntry] at h
  | cons hd tl ih =>
    obtain ⟨k2, v2⟩ := hd
    by_cases hk : k2 = k
    · subst hk
      simp [lookupEntry] at h
      simp [setEntry, h]
    · simp [lookupEntry, hk] at h
      simp [setEntry, hk, ih h]

/-- Side of the book: BID or ASK. -/
inductive Side : Type where
  | bid : Side
  | ask : Side
deriving DecidableEq

/-- One side of an order book: price to size, exact decimals modelled as
rationals, dict semantics via the assoc-list primitives above. -/
abbrev BookSide := List (Rat × Rat)

/-- Offset ledger for one symbol: price to last-applied token
(Python int(...) of the wire offset). -/
abbrev Ledger := List (Rat × Int)

/-- The per-symbol order book object: self.l2book[pair].book. -/
structure PairBook : Type where
  bids : BookSide
  asks : BookSide
deriving DecidableEq

/-- Indexing of the book by side: book[side]. -/
def PairBook.sideOf (b : PairBook) : Side → BookSide
  | Side.bid => b.bids
  | Side.ask => b.asks

/-- Assignment to one side of the book. -/
def PairBook.setSide (b : PairBook) : Side → BookSide → PairBook
  | Side.bid, l => ⟨l, b.asks⟩
  | Side.ask, l => ⟨b.bids, l⟩

/-- The delta accumulated by the dYdX channel_data handler:
delta = \x7bBID: [], ASK: []\x7d, each entry a (price, amount) pair. -/
structure BookDelta : Type where
  bids : List (Rat × Rat)
  asks : List (Rat × Rat)
deriving DecidableEq

/-- One emission of book_callback: the (possibly depth-capped) book state
passed along, and the delta argument (none encodes delta=None, a full
snapshot payload). -/
structure BookEvent : Type where
  book : PairBook
  delta : Option BookDelta
deriving DecidableEq

/-- A Python KeyError raised by indexing a dict with a missing key. -/
inductive KeyErr : Type where
  | keyError : KeyErr
deriving DecidableEq

/-- The mutable adapter state of the dYdX feed: self.l2book (pair to
order book) and self.offsets (pair to offset ledger). -/
structure DydxState : Type where
  l2book : List (String × PairBook)
  offsets : List (String × Ledger)
deriving DecidableEq

/-- The offset ledger token recorded for a price of a pair, when any. -/
def tokenAt (pair : String) (p : Rat) (s : DydxState) : Option Int :=
  match lookupEntry pair s.offsets with
  | none => none
  | some led => lookupEntry p led

/-- Non-stale path of the loop body: dydx.py lines 69-77.  The offsets
entry is written, the triple joins the delta, and self.l2book[pair]
(a KeyError when missing) is mutated. -/
def dydxApplyFresh (pair : String) (offset : Int) (side : Side) (price amount : Rat)
    (led : Ledger) (s : DydxState) : Except KeyErr (DydxState × Option (Rat × Rat)) :=
  match lookupEntry pair s.l2book with
  | none => Except.error KeyErr.keyError
  | some bk =>
    let led2 := setEntry price offset led
    let old := bk.sideOf side
    let updatedSide :=
      if amount = 0 then
        if (lookupEntry price old).isSome then eraseEntry price old else old
      else setEntry price amount old
    let bk2 := bk.setSide side updatedSide
    Except.ok (⟨setEntry pair bk2 s.l2book, setEntry pair led2 s.offsets⟩, some (price, amount))

/-- Body of the dYdX channel_data loop for a single (price, amount) wire
entry, dydx.py lines 63-77.  The offset ledger for the pair is read
first (self.offsets[pair], a KeyError when the pair is missing); a stale
entry (recorded token present and offset < recorded) is skipped with no
mutation; otherwise the ledger is updated to the offset, the (price,
amount) pair is reported for the delta, and the book is mutated:
amount == 0 removes the level when present, any other amount upserts it. -/
def dydxApplyOne (pair : String) (offset : Int) (side : Side) (price amount : Rat)
    (s : DydxState) : Except KeyErr (DydxState × Option (Rat × Rat)) :=
  match lookupEntry pair s.offsets with
  | none => Except.error KeyErr.keyError
  | some led =>
    match lookupEntry price led with
    | some rec =>
      if offset < rec then Except.ok (s, none)
      else dydxApplyFresh pair offset side price amount led s
    | none => dydxApplyFresh pair offset side price amount led s

/-- The inner for-loop of the channel_data branch over one side's wire
entries, accumulating the applied (price, amount) pairs in order. -/
def dydxApplyList (pair : String) (offset : Int) (side : Side) :
    List (Rat × Rat) → DydxState → Except KeyErr (DydxState × List (Rat × Rat))
  | [], s => Except.ok (s, [])
  | (price, amount) :: rest, s =>
    match dydxApplyOne pair offset side price amount s with
    | Except.error e => Except.error e
    | Except.ok (s1, d) =>
      match dydxApplyList pair offset side rest s1 with
      | Except.error e => Except.error e
      | Except.ok (s2, ds) => Except.ok (s2, d.toList ++ ds)

/-- A channel_data wire message: msg.contents.offset (one token for the
whole batch) and the bids and asks entry lists. -/
structure DydxChannelData : Type where
  offset : Int
  bids : List (Rat × Rat)
  asks : List (Rat × Rat)
deriving DecidableEq

/-- The channel_data branch of dYdX._book, dydx.py lines 58-79: bids are
processed before asks, and book_callback fires with the accumulated
delta exactly when some entry was applied (the updated flag is set iff
some entry joined the delta). -/
def dydxChannelData (pair : String) (m : DydxChannelData) (s : DydxState) :
    Except KeyErr (DydxState × Option BookEvent) :=
  match dydxApplyList pair m.offset Side.bid m.bids s with
  | Except.error e => Except.error e
  | Except.ok (s1, dbids) =>
    match dydxApplyList pair m.offset Side.ask m.asks s1 with
    | Except.error e => Except.error e
    | Except.ok (s2, dasks) =>
      if dbids = [] ∧ dasks = [] then Except.ok (s2, none)
      else
        match lookupEntry pair s2.l2book with
        | none => Except.error KeyErr.keyError
        | some bk => Except.ok (s2, some ⟨bk, some ⟨dbids, dasks⟩⟩)

/-- One level of a dYdX snapshot message: entry.price, entry.size,
entry.offset. -/
structure SnapEntry : Type where
  price : Rat
  size : Rat
  offset : Int
deriving DecidableEq

/-- A dYdX snapshot (subscribed) book message: contents.bids and
contents.asks. -/
structure DydxSnapshot : Type where
  bids : List SnapEntry
  asks : List SnapEntry
deriving DecidableEq

/-- One side of the snapshot loop, dydx.py lines 85-91: every entry
seeds the ledger with its offset; only entries with size > 0 are
installed in the book side. -/
def dydxSnapSide : List SnapEntry → Ledger → BookSide → Ledger × BookSide
  | [], led, bk => (led, bk)
  | e :: rest, led, bk =>
    dydxSnapSide rest (setEntry e.price e.offset led)
      (if 0 < e.size then setEntry e.price e.size bk else bk)

/-- The fresh ledger and book built by the snapshot branch from an empty
OrderBook and an empty offsets dict. -/
def dydxSnapshotApply (m : DydxSnapshot) : Ledger × PairBook :=
  let bidsRes := dydxSnapSide m.bids [] []
  let asksRes := dydxSnapSide m.asks bidsRes.1 []
  (asksRes.1, ⟨bidsRes.2, asksRes.2⟩)

/-- The snapshot branch of dYdX._book, dydx.py lines 80-92: a fresh
OrderBook and an empty ledger replace whatever was stored for the pair,
and book_callback fires once with delta=None. -/
def dydxSnapshot (pair : String) (m : DydxSnapshot) (s : DydxState) :
    DydxState × BookEvent :=
  let res := dydxSnapshotApply m
  (⟨setEntry pair res.2 s.l2book, setEntry pair res.1 s.offsets⟩, ⟨res.2, none⟩)

/-- A dYdX v3_orderbook wire message is either an incremental
channel_data update or a snapshot (the subscribed message). -/
inductive DydxBookMsg : Type where
  | channelData : DydxChannelData → DydxBookMsg
  | snapshot : DydxSnapshot → DydxBookMsg
deriving DecidableEq

/-- dYdX._book: dispatch on msg.type; the snapshot branch always emits
one event with delta=None. -/
def dydxBook (pair : String) (msg : DydxBookMsg) (s : DydxState) :
    Except KeyErr (DydxState × Option BookEvent) :=
  match msg with
  | DydxBookMsg.channelData m => dydxChannelData pair m s
  | DydxBookMsg.snapshot m =>
    let res := dydxSnapshot pair m s
    Except.ok (res.1, some res.2)

/-- Sequential handling of a list of channel_data messages (the
strictly-sequential per-connection processing path), emissions dropped. -/
def dydxRunChannel (pair : String) : List DydxChannelData → DydxState → Except KeyErr DydxState
  | [], s => Except.ok s
  | m :: rest, s =>
    match dydxChannelData pair m s with
    | Except.error e => Except.error e
    | Except.ok (s1, _) => dydxRunChannel pair rest s1

/-- dYdX.__reset, dydx.py lines 50-52: both dicts are replaced by empty
dicts. -/
def dydxReset (_s : DydxState) : DydxState := ⟨[], []⟩

/-- One dYdX subscribe payload, dydx.py lines 170-172: type=subscribe
with the channel, the symbol, and includeOffsets set on book channels. -/
structure DydxSubMsg : Type where
  channel : String
  id : String
  includeOffsets : Bool
deriving DecidableEq

/-- The payloads written by dYdX.subscribe, dydx.py lines 168-173: one
message per (channel, symbol) pair, includeOffsets exactly on the
channel that normalizes to L2_BOOK. -/
def dydxSubscribeMsgs (bookChannel : String) (subscription : List (String × List String)) :
    List DydxSubMsg :=
  subscription.flatMap (fun cs => cs.2.map (fun sym => ⟨cs.1, sym, decide (cs.1 = bookChannel)⟩))

/-- dYdX.subscribe, dydx.py lines 165-173: self.__reset() runs first,
then the payloads are written. -/
def dydxSubscribe (bookChannel : String) (subscription : List (String × List String))
    (s : DydxState) : DydxState × List DydxSubMsg :=
  (dydxReset s, dydxSubscribeMsgs bookChannel subscription)

/-- Canonical trade side. -/
inductive TradeSide : Type where
  | buy : TradeSide
  | sell : TradeSide
deriving DecidableEq

/-- A canonical Trade event as constructed by the adapters: side, amount,
price, normalized timestamp, optional exchange trade id. -/
structure TradeEv : Type where
  side : TradeSide
  amount : Rat
  price : Rat
  timestamp : Rat
  id : Option String
deriving DecidableEq

/-- One dYdX wire trade record, msg.contents.trades[i]: the side string,
size and price decimals, and the createdAt timestamp value (kept as the
abstract numeric value handed to timestamp_normalize). -/
structure DydxWireTrade : Type where
  side : String
  size : Rat
  price : Rat
  createdAt : Rat
deriving DecidableEq

/-- Construction of one Trade by dYdX._trade, dydx.py lines 138-146.
The inherited timestamp_normalize is outside these source files, so it
is kept abstract as the parameter f (the spec requires only that it
normalizes the exchange timestamp to epoch seconds); no id is passed. -/
def dydxTradeOne (f : Rat → Rat) (t : DydxWireTrade) : TradeEv :=
  ⟨if t.side = "BUY" then TradeSide.buy else TradeSide.sell,
   t.size, t.price, f t.createdAt, none⟩

/-- dYdX._trade, dydx.py lines 136-147: one callback emission per wire
trade record, in wire order. -/
def dydxTradeBatch (f : Rat → Rat) (ts : List DydxWireTrade) : List TradeEv :=
  ts.map (dydxTradeOne f)

/-- Upbit.timestamp_normalize, upbit.py lines 36-38: ts / 1000.0. -/
def upbitTimestampNormalize (ts : Rat) : Rat := ts / 1000

/-- One Upbit wire trade message (the message is a single record):
tp (price), tv (amount), ab (BID or ASK), ttms (trade timestamp in
milliseconds), sid (sequential id, stringified for the Trade). -/
structure UpbitWireTrade : Type where
  tp : Rat
  tv : Rat
  ab : String
  ttms : Rat
  sid : String
deriving DecidableEq

/-- Upbit._trade, upbit.py lines 73-85: exactly one Trade is built and
emitted per wire message, with side BUY iff ab == BID, amount tv, price
tp, timestamp ttms normalized by timestamp_normalize, id sid. -/
def upbitTrade (m : UpbitWireTrade) : List TradeEv :=
  [⟨if m.ab = "BID" then TradeSide.buy else TradeSide.sell,
    m.tv, m.tp, upbitTimestampNormalize m.ttms, some m.sid⟩]

/-- One Upbit orderbook unit, msg.obu[i]: ask price ap, ask size (wire
name as, renamed because as is a Lean keyword), bid price bp, bid
size bs. -/
structure UpbitUnit : Type where
  ap : Rat
  asz : Rat
  bp : Rat
  bs : Rat
deriving DecidableEq

/-- The bids dict comprehension of Upbit._book, upbit.py line 122:
Decimal(bp) to Decimal(bs) for units with bp > 0; later duplicates
overwrite earlier ones as in a Python dict comprehension. -/
def upbitBids : List UpbitUnit → BookSide → BookSide
  | [], acc => acc
  | u :: rest, acc => upbitBids rest (if 0 < u.bp then setEntry u.bp u.bs acc else acc)

/-- The asks dict comprehension of Upbit._book, upbit.py line 123. -/
def upbitAsks : List UpbitUnit → BookSide → BookSide
  | [], acc => acc
  | u :: rest, acc => upbitAsks rest (if 0 < u.ap then setEntry u.ap u.asz acc else acc)

/-- The mutable book state of the Upbit feed: self.l2book only (Upbit
keeps no offset ledger). -/
structure UpbitState : Type where
  l2book : List (String × PairBook)
deriving DecidableEq

/-- Upbit._book, upbit.py lines 117-125: both sides of the pair's book
are wholesale reassigned from the message's units (an OrderBook object
is first created for an unseen pair, which the reassignment makes
irrelevant), and book_callback fires once per message.  The call site
passes no delta argument; the shared book_callback signature (outside
these source files) defaults it to None, per the spec's full-replace
discipline. -/
def upbitBook (pair : String) (units : List UpbitUnit) (s : UpbitState) :
    UpbitState × BookEvent :=
  let bk : PairBook := ⟨upbitBids units [], upbitAsks units []⟩
  (⟨setEntry pair bk s.l2book⟩, ⟨bk, none⟩)

/-- One entry of the Upbit subscribe payload list (after the ticket and
format entries): the wire type string and the symbol codes. -/
structure UpbitSubEntry : Type where
  ty : String
  codes : List String
deriving DecidableEq

/-- The channel entries of the Upbit subscribe payload, upbit.py lines
165-170: orderbook entries for L2_BOOK subscriptions, trade entries for
TRADES subscriptions (the leading ticket and format entries are not
modelled). -/
def upbitSubChans (bookChan tradesChan : String) (subscription : List (String × List String)) :
    List UpbitSubEntry :=
  subscription.flatMap (fun cs =>
    (if cs.1 = bookChan then [⟨"orderbook", cs.2⟩] else []) ++
    (if cs.1 = tradesChan then [⟨"trade", cs.2⟩] else []))

/-- Upbit.subscribe, upbit.py lines 138-172: the payload is built and
written; no book state is touched (there is no reset). -/
def upbitSubscribe (bookChan tradesChan : String) (subscription : List (String × List String))
    (s : UpbitState) : UpbitState × List UpbitSubEntry :=
  (s, upbitSubChans bookChan tradesChan subscription)

deriving instance DecidableEq for Except

theorem lookupEntry_setEntry_cases {κ α : Type} [DecidableEq κ] {k q : κ} {v w : α}
    {l : List (κ × α)} (h : lookupEntry q (setEntry k v l) = some w) :
    (q = k ∧ w = v) ∨ lookupEntry q l = some w := by
  by_cases hq : q = k
  · subst hq
    rw [lookupEntry_setEntry_self] at h
    exact Or.inl ⟨rfl, (Option.some.injEq _ _ ▸ h).symm⟩
  · rw [lookupEntry_setEntry_ne v l hq] at h
    exact Or.inr h

theorem lookupEntry_setEntry_isSome_iff {κ α : Type} [DecidableEq κ] (k q : κ) (v : α)
    (l : List (κ × α)) :
    (lookupEntry q (setEntry k v l)).isSome ↔ q = k ∨ (lookupEntry q l).isSome := by
  by_cases hq : q = k
  · subst hq
    simp [lookupEntry_setEntry_self]
  · rw [lookupEntry_setEntry_ne v l hq]
    simp [hq]

theorem PairBook.setSide_sideOf (b : PairBook) (side : Side) :
    b.setSide side (b.sideOf side) = b := by
  cases b
  cases side <;> rfl

theorem dydxApplyFresh_eq (pair : String) (offset : Int) (side : Side)
    (price amount : Rat) (led : Ledger) (s : DydxState) (bk : PairBook)
    (hbk : lookupEntry pair s.l2book = some bk) :
    dydxApplyFresh pair offset side price amount led s =
      Except.ok
        (⟨setEntry pair
            (bk.setSide side
              (if amount = 0 then
                if (lookupEntry price (bk.sideOf side)).isSome then
                  eraseEntry price (bk.sideOf side)
                else bk.sideOf side
              else setEntry price amount (bk.sideOf side))) s.l2book,
          setEntry pair (setEntry price offset led) s.offsets⟩,
         some (price, amount)) := by
  unfold dydxApplyFresh
  rw [hbk]

theorem dydxApplyFresh_ok_delta (pair : String) (offset : Int) (side : Side)
    (price amount : Rat) (led : Ledger) (s s1 : DydxState) (d : Option (Rat × Rat))
    (h : dydxApplyFresh pair offset side price amount led s = Except.ok (s1, d)) :
    d = some (price, amount) ∧
    lookupEntry pair s1.offsets = some (setEntry price offset led) := by
  unfold dydxApplyFresh at h
  cases hbk : lookupEntry pair s.l2book with
  | none => rw [hbk] at h; exact absurd h (by simp)
  | some bk =>
    rw [hbk] at h
    have h2 := h
    simp only [Except.ok.injEq, Prod.mk.injEq] at h2
    obtain ⟨hs, hd⟩ := h2
    refine ⟨hd.symm, ?_⟩
    rw [← hs]
    exact lookupEntry_setEntry_self _ _ _

theorem dydxApplyOne_stale (pair : String) (offset : Int) (side : Side)
    (price amount : Rat) (s : DydxState) (led : Ledger) (rec : Int)
    (hled : lookupEntry pair s.offsets = some led)
    (hrec : lookupEntry price led = some rec) (hlt : offset < rec) :
    dydxApplyOne pair offset side price amount s = Except.ok (s, none) := by
  simp only [dydxApplyOne, hled, hrec]
  simp [hlt]

theorem dydxApplyOne_fresh (pair : String) (offset : Int) (side : Side)
    (price amount : Rat) (s : DydxState) (led : Ledger)
    (hled : lookupEntry pair s.offsets = some led)
    (hfresh : ∀ rec, lookupEntry price led = some rec → rec ≤ offset) :
    dydxApplyOne pair offset side price amount s =
      dydxApplyFresh pair offset side price amount led s := by
  simp only [dydxApplyOne, hled]
  cases hrec : lookupEntry price led with
  | none => simp
  | some rec =>
    have hnl : ¬ offset < rec := not_lt.mpr (hfresh rec hrec)
    simp [hnl]

/-- C1: an incoming dYdX delta triple is applied iff no ledger entry
exists for its price or the supplied token is at least the recorded one;
a token strictly below the recorded one leaves the state untouched and
contributes nothing to the emitted delta. -/
theorem dydx_stale_discard (pair : String) (offset : Int) (side : Side)
    (price amount : Rat) (s : DydxState) (led : Ledger)
    (hled : lookupEntry pair s.offsets = some led) :
    ((∃ rec, lookupEntry price led = some rec ∧ offset < rec) →
      dydxApplyOne pair offset side price amount s = Except.ok (s, none)) ∧
    ((lookupEntry price led = none ∨ ∃ rec, lookupEntry price led = some rec ∧ rec ≤ offset) →
      ∀ s1 d, dydxApplyOne pair offset side price amount s = Except.ok (s1, d) →
        d = some (price, amount) ∧
        lookupEntry pair s1.offsets = some (setEntry price offset led)) := by
  constructor
  · rintro ⟨rec, hrec, hlt⟩
    exact dydxApplyOne_stale pair offset side price amount s led rec hled hrec hlt
  · intro hfresh s1 d h
    have hf : ∀ rec, lookupEntry price led = some rec → rec ≤ offset := by
      intro rec hrec
      rcases hfresh with hnone | ⟨rec2, hrec2, hle⟩
      · rw [hnone] at hrec; exact absurd hrec (by simp)
      · rw [hrec2] at hrec
        cases hrec
        exact hle
    rw [dydxApplyOne_fresh pair offset side price amount s led hled hf] at h
    exact dydxApplyFresh_ok_delta pair offset side price amount led s s1 d h

/-- Witness for C1 at a concrete state: a stale bid (token 2 against a
recorded 3) is returned unapplied with no delta contribution. -/
theorem dydx_stale_discard_witness :
    dydxApplyOne "S" 2 Side.bid 5 7 ⟨[("S", ⟨[(5, 9)], []⟩)], [("S", [(5, 3)])]⟩ =
      Except.ok (⟨[("S", ⟨[(5, 9)], []⟩)], [("S", [(5, 3)])]⟩, none) :=
  (dydx_stale_discard "S" 2 Side.bid 5 7 ⟨[("S", ⟨[(5, 9)], []⟩)], [("S", [(5, 3)])]⟩
    [(5, 3)] (by decide)).1 ⟨3, by decide, by decide⟩

theorem dydxApplyFresh_ok_some (pair : String) (offset : Int) (side : Side)
    (price amount : Rat) (led : Ledger) (s s1 : DydxState) (d : Option (Rat × Rat))
    (h : dydxApplyFresh pair offset side price amount led s = Except.ok (s1, d)) :
    d = some (price, amount) :=
  (dydxApplyFresh_ok_delta pair offset side price amount led s s1 d h).1

theorem dydxApplyOne_ok_none (pair : String) (offset : Int) (side : Side)
    (price amount : Rat) (s s1 : DydxState)
    (h : dydxApplyOne pair offset side price amount s = Except.ok (s1, none)) :
    s1 = s := by
  unfold dydxApplyOne at h
  cases hled : lookupEntry pair s.offsets with
  | none => rw [hled] at h; exact absurd h (by simp)
  | some led =>
    rw [hled] at h
    simp only at h
    cases hrec : lookupEntry price led with
    | none =>
      rw [hrec] at h
      simp only at h
      have := dydxApplyFresh_ok_some pair offset side price amount led s s1 none h
      exact absurd this (by simp)
    | some rec =>
      rw [hrec] at h
      simp only at h
      by_cases hlt : offset < rec
      · rw [if_pos hlt] at h
        simp only [Except.ok.injEq, Prod.mk.injEq] at h
        exact h.1.symm
      · rw [if_neg hlt] at h
        have := dydxApplyFresh_ok_some pair offset side price amount led s s1 none h
        exact absurd this (by simp)

theorem dydxApplyOne_ok_some (pair : String) (offset : Int) (side : Side)
    (price amount : Rat) (s s1 : DydxState) (x : Rat × Rat)
    (h : dydxApplyOne pair offset side price amount s = Except.ok (s1, some x)) :
    x = (price, amount) := by
  unfold dydxApplyOne at h
  cases hled : lookupEntry pair s.offsets with
  | none => rw [hled] at h; exact absurd h (by simp)
  | some led =>
    rw [hled] at h
    simp only at h
    cases hrec : lookupEntry price led with
    | none =>
      rw [hrec] at h
      simp only at h
      have := dydxApplyFresh_ok_some pair offset side price amount led s s1 (some x) h
      exact Option.some.inj this
    | some rec =>
      rw [hrec] at h
      simp only at h
      by_cases hlt : offset < rec
      · rw [if_pos hlt] at h
        simp at h
      · rw [if_neg hlt] at h
        have := dydxApplyFresh_ok_some pair offset side price amount led s s1 (some x) h
        exact Option.some.inj this

theorem dydxApplyList_ok (pair : String) (offset : Int) (side : Side)
    (entries : List (Rat × Rat)) (s s2 : DydxState) (ds : List (Rat × Rat))
    (h : dydxApplyList pair offset side entries s = Except.ok (s2, ds)) :
    List.Sublist ds entries ∧ (ds = [] → s2 = s) := by
  induction entries generalizing s ds with
  | nil =>
    unfold dydxApplyList at h
    simp only [Except.ok.injEq, Prod.mk.injEq] at h
    obtain ⟨hs, hds⟩ := h
    subst hs
    subst hds
    exact ⟨List.nil_sublist _, fun _ => rfl⟩
  | cons e rest ih =>
    obtain ⟨price, amount⟩ := e
    unfold dydxApplyList at h
    cases h1 : dydxApplyOne pair offset side price amount s with
    | error e2 => rw [h1] at h; exact absurd h (by simp)
    | ok r1 =>
      obtain ⟨s1, d⟩ := r1
      rw [h1] at h
      simp only at h
      cases h2 : dydxApplyList pair offset side rest s1 with
      | error e2 => rw [h2] at h; exact absurd h (by simp)
      | ok r2 =>
        obtain ⟨s3, ds2⟩ := r2
        rw [h2] at h
        simp only [Except.ok.injEq, Prod.mk.injEq] at h
        obtain ⟨hs, hds⟩ := h
        subst hs
        have hrec := ih s1 ds2 h2
        cases d with
        | none =>
          have hseq : s1 = s := dydxApplyOne_ok_none pair offset side price amount s s1 h1
          subst hseq
          simp only [Option.toList, List.nil_append] at hds
          subst hds
          exact ⟨List.Sublist.cons _ hrec.1, hrec.2⟩
        | some x =>
          have hx : x = (price, amount) :=
            dydxApplyOne_ok_some pair offset side price amount s s1 x h1
          subst hx
          simp only [Option.toList, List.singleton_append] at hds
          subst hds
          refine ⟨List.Sublist.cons₂ _ hrec.1, fun hc => absurd hc (by simp)⟩

/-- C4: when a dYdX channel_data batch is handled successfully, no event
is emitted exactly when every triple was discarded (and then the state
is untouched); otherwise exactly one event is emitted, carrying a
non-empty delta made only of applied triples (a sublist of the wire
entries, per side, in order) together with the current book. -/
theorem dydx_empty_delta_suppression (pair : String) (m : DydxChannelData)
    (s s2 : DydxState) (ev : Option BookEvent)
    (h : dydxChannelData pair m s = Except.ok (s2, ev)) :
    (ev = none → s2 = s) ∧
    (∀ e, ev = some e → ∃ dbids dasks,
      e.delta = some ⟨dbids, dasks⟩ ∧ ¬(dbids = [] ∧ dasks = []) ∧
      List.Sublist dbids m.bids ∧ List.Sublist dasks m.asks ∧
      lookupEntry pair s2.l2book = some e.book) := by
  unfold dydxChannelData at h
  cases h1 : dydxApplyList pair m.offset Side.bid m.bids s with
  | error e2 => rw [h1] at h; exact absurd h (by simp)
  | ok r1 =>
    obtain ⟨s1, dbids⟩ := r1
    rw [h1] at h
    simp only at h
    cases h2 : dydxApplyList pair m.offset Side.ask m.asks s1 with
    | error e2 => rw [h2] at h; exact absurd h (by simp)
    | ok r2 =>
      obtain ⟨s3, dasks⟩ := r2
      rw [h2] at h
      simp only at h
      have hb := dydxApplyList_ok pair m.offset Side.bid m.bids s s1 dbids h1
      have ha := dydxApplyList_ok pair m.offset Side.ask m.asks s1 s3 dasks h2
      by_cases hemp : dbids = [] ∧ dasks = []
      · rw [if_pos hemp] at h
        simp only [Except.ok.injEq, Prod.mk.injEq] at h
        obtain ⟨hs, hev⟩ := h
        subst hs
        constructor
        · intro _
          rw [ha.2 hemp.2, hb.2 hemp.1]
        · intro e he
          rw [← hev] at he
          exact absurd he (by simp)
      · rw [if_neg hemp] at h
        cases hbk : lookupEntry pair s3.l2book with
        | none => rw [hbk] at h; exact absurd h (by simp)
        | some bk =>
          rw [hbk] at h
          simp only [Except.ok.injEq, Prod.mk.injEq] at h
          obtain ⟨hs, hev⟩ := h
          subst hs
          constructor
          · intro he
            rw [← hev] at he
            exact absurd he (by simp)
          · intro e he
            rw [← hev] at he
            simp only [Option.some.injEq] at he
            subst he
            exact ⟨dbids, dasks, rfl, hemp, hb.1, ha.1, hbk⟩

/-- Witness for C4 at a concrete state: a batch whose only triple is
stale yields an ok result with no emission, and the state is unchanged. -/
theorem dydx_empty_delta_suppression_witness :
    (⟨[("S", ⟨[(5, 9)], []⟩)], [("S", [(5, 3)])]⟩ : DydxState) =
      ⟨[("S", ⟨[(5, 9)], []⟩)], [("S", [(5, 3)])]⟩ :=
  (dydx_empty_delta_suppression "S" ⟨2, [(5, 7)], []⟩
    ⟨[("S", ⟨[(5, 9)], []⟩)], [("S", [(5, 3)])]⟩
    ⟨[("S", ⟨[(5, 9)], []⟩)], [("S", [(5, 3)])]⟩ none (by decide)).1 rfl

/-- Counterexample to C5 as stated: with an empty book and an empty
ledger for the symbol, a size-0 delta at an absent price leaves the book
untouched and is reported applied, but the (price, 0) triple does appear
in the emitted delta, contradicting the claim that it must not. -/
theorem dydx_zero_size_absent_in_delta :
    dydxChannelData "S" ⟨1, [(5, 0)], []⟩ ⟨[("S", ⟨[], []⟩)], [("S", [])]⟩ =
      Except.ok (⟨[("S", ⟨[], []⟩)], [("S", [(5, 1)])]⟩,
        some ⟨⟨[], []⟩, some ⟨[(5, 0)], []⟩⟩) := by decide

/-- C5 amended: a non-stale size-0 delta removes the price level when
present and never installs a zero-size level; for an absent price it is
a no-op on the book, but it is still recorded as applied: the ledger is
updated to the supplied token and the (price, 0) triple does appear in
the emitted delta. -/
theorem dydx_zero_size_removal (pair : String) (offset : Int) (side : Side)
    (price : Rat) (s : DydxState) (led : Ledger) (bk : PairBook)
    (hled : lookupEntry pair s.offsets = some led)
    (hbk : lookupEntry pair s.l2book = some bk)
    (hfresh : ∀ rec, lookupEntry price led = some rec → rec ≤ offset) :
    dydxApplyOne pair offset side price 0 s =
      Except.ok
        (⟨setEntry pair
            (bk.setSide side
              (if (lookupEntry price (bk.sideOf side)).isSome then
                eraseEntry price (bk.sideOf side)
              else bk.sideOf side)) s.l2book,
          setEntry pair (setEntry price offset led) s.offsets⟩,
         some (price, 0)) ∧
    (lookupEntry price (bk.sideOf side) = none →
      dydxApplyOne pair offset side price 0 s =
        Except.ok
          (⟨s.l2book, setEntry pair (setEntry price offset led) s.offsets⟩,
           some (price, 0))) := by
  have hmain : dydxApplyOne pair offset side price 0 s =
      Except.ok
        (⟨setEntry pair
            (bk.setSide side
              (if (lookupEntry price (bk.sideOf side)).isSome then
                eraseEntry price (bk.sideOf side)
              else bk.sideOf side)) s.l2book,
          setEntry pair (setEntry price offset led) s.offsets⟩,
         some (price, 0)) := by
    rw [dydxApplyOne_fresh pair offset side price 0 s led hled hfresh]
    rw [dydxApplyFresh_eq pair offset side price 0 led s bk hbk]
    simp
  refine ⟨hmain, fun habs => ?_⟩
  rw [hmain]
  rw [habs]
  simp only [Option.isSome_none, Bool.false_eq_true, if_false]
  rw [PairBook.setSide_sideOf, setEntry_eq_of_lookup_eq pair bk s.l2book hbk]

/-- Witness for C5 at concrete states: a fresh size-0 delta removes the
level 5 from a book holding it, and at a book without that level it
leaves the book dict unchanged while updating the ledger. -/
theorem dydx_zero_size_removal_witness :
    dydxApplyOne "S" 4 Side.bid 5 0 ⟨[("S", ⟨[(5, 2)], []⟩)], [("S", [(5, 3)])]⟩ =
      Except.ok (⟨[("S", ⟨[], []⟩)], [("S", [(5, 4)])]⟩, some (5, 0)) ∧
    dydxApplyOne "S" 4 Side.bid 5 0 ⟨[("S", ⟨[(7, 2)], []⟩)], [("S", [])]⟩ =
      Except.ok (⟨[("S", ⟨[(7, 2)], []⟩)], [("S", [(5, 4)])]⟩, some (5, 0)) := by
  constructor
  · have h := (dydx_zero_size_removal "S" 4 Side.bid 5
      ⟨[("S", ⟨[(5, 2)], []⟩)], [("S", [(5, 3)])]⟩ [(5, 3)] ⟨[(5, 2)], []⟩
      (by decide) (by decide) (by decide)).1
    exact h
  · have h := (dydx_zero_size_removal "S" 4 Side.bid 5
      ⟨[("S", ⟨[(7, 2)], []⟩)], [("S", [])]⟩ [] ⟨[(7, 2)], []⟩
      (by decide) (by decide) (by decide)).2 (by decide)
    exact h

theorem dydxApplyFresh_token_mono (pair : String) (offset : Int) (side : Side)
    (price amount : Rat) (led : Ledger) (s s1 : DydxState) (d : Option (Rat × Rat))
    (hled : lookupEntry pair s.offsets = some led)
    (h : dydxApplyFresh pair offset side price amount led s = Except.ok (s1, d))
    (hok : ∀ rec, lookupEntry price led = some rec → rec ≤ offset)
    (pr : String) (q : Rat) (rec : Int) (hq : tokenAt pr q s = some rec) :
    ∃ rec2, tokenAt pr q s1 = some rec2 ∧ rec ≤ rec2 := by
  unfold dydxApplyFresh at h
  cases hbk : lookupEntry pair s.l2book with
  | none => rw [hbk] at h; exact absurd h (by simp)
  | some bk =>
    rw [hbk] at h
    simp only [Except.ok.injEq, Prod.mk.injEq] at h
    obtain ⟨hs, _⟩ := h
    by_cases hpr : pr = pair
    · subst hpr
      have hql : lookupEntry q led = some rec := by
        simpa [tokenAt, hled] using hq
      have htok : tokenAt pr q s1 = lookupEntry q (setEntry price offset led) := by
        rw [← hs]
        simp [tokenAt, lookupEntry_setEntry_self]
      rw [htok]
      by_cases hqp : q = price
      · subst hqp
        rw [lookupEntry_setEntry_self]
        exact ⟨offset, rfl, hok rec hql⟩
      · rw [lookupEntry_setEntry_ne _ _ hqp]
        exact ⟨rec, hql, le_refl rec⟩
    · have htok : tokenAt pr q s1 = tokenAt pr q s := by
        rw [← hs]
        simp only [tokenAt]
        rw [lookupEntry_setEntry_ne _ _ hpr]
      rw [htok]
      exact ⟨rec, hq, le_refl rec⟩

theorem dydxApplyOne_token_mono (pair : String) (offset : Int) (side : Side)
    (price amount : Rat) (s s1 : DydxState) (d : Option (Rat × Rat))
    (h : dydxApplyOne pair offset side price amount s = Except.ok (s1, d))
    (pr : String) (q : Rat) (rec : Int) (hq : tokenAt pr q s = some rec) :
    ∃ rec2, tokenAt pr q s1 = some rec2 ∧ rec ≤ rec2 := by
  unfold dydxApplyOne at h
  cases hled : lookupEntry pair s.offsets with
  | none => rw [hled] at h; exact absurd h (by simp)
  | some led =>
    rw [hled] at h
    simp only at h
    cases hrecp : lookupEntry price led with
    | none =>
      rw [hrecp] at h
      simp only at h
      refine dydxApplyFresh_token_mono pair offset side price amount led s s1 d hled h
        ?_ pr q rec hq
      intro rec0 hrec0
      rw [hrecp] at hrec0
      exact absurd hrec0 (by simp)
    | some rec0 =>
      rw [hrecp] at h
      simp only at h
      by_cases hlt : offset < rec0
      · rw [if_pos hlt] at h
        simp only [Except.ok.injEq, Prod.mk.injEq] at h
        rw [← h.1]
        exact ⟨rec, hq, le_refl rec⟩
      · rw [if_neg hlt] at h
        refine dydxApplyFresh_token_mono pair offset side price amount led s s1 d hled h
          ?_ pr q rec hq
        intro rec1 hrec1
        rw [hrecp] at hrec1
        cases hrec1
        exact not_lt.mp hlt

theorem dydxApplyList_token_mono (pair : String) (offset : Int) (side : Side)
    (entries : List (Rat × Rat)) (s s2 : DydxState) (ds : List (Rat × Rat))
    (h : dydxApplyList pair offset side entries s = Except.ok (s2, ds))
    (pr : String) (q : Rat) (rec : Int) (hq : tokenAt pr q s = some rec) :
    ∃ rec2, tokenAt pr q s2 = some rec2 ∧ rec ≤ rec2 := by
  induction entries generalizing s ds rec with
  | nil =>
    unfold dydxApplyList at h
    simp only [Except.ok.injEq, Prod.mk.injEq] at h
    rw [← h.1]
    exact ⟨rec, hq, le_refl rec⟩
  | cons e rest ih =>
    obtain ⟨price, amount⟩ := e
    unfold dydxApplyList at h
    cases h1 : dydxApplyOne pair offset side price amount s with
    | error e2 => rw [h1] at h; exact absurd h (by simp)
    | ok r1 =>
      obtain ⟨s1, d⟩ := r1
      rw [h1] at h
      simp only at h
      cases h2 : dydxApplyList pair offset side rest s1 with
      | error e2 => rw [h2] at h; exact absurd h (by simp)
      | ok r2 =>
        obtain ⟨s3, ds2⟩ := r2
        rw [h2] at h
        simp only [Except.ok.injEq, Prod.mk.injEq] at h
        obtain ⟨hs, _⟩ := h
        subst hs
        obtain ⟨rec1, hrec1, hle1⟩ :=
          dydxApplyOne_token_mono pair offset side price amount s s1 d h1 pr q rec hq
        obtain ⟨rec2, hrec2, hle2⟩ := ih s1 ds2 h2 rec1 hrec1
        exact ⟨rec2, hrec2, le_trans hle1 hle2⟩

theorem dydxChannelData_token_mono (pair : String) (m : DydxChannelData)
    (s s2 : DydxState) (ev : Option BookEvent)
    (h : dydxChannelData pair m s = Except.ok (s2, ev))
    (pr : String) (q : Rat) (rec : Int) (hq : tokenAt pr q s = some rec) :
    ∃ rec2, tokenAt pr q s2 = some rec2 ∧ rec ≤ rec2 := by
  unfold dydxChannelData at h
  cases h1 : dydxApplyList pair m.offset Side.bid m.bids s with
  | error e2 => rw [h1] at h; exact absurd h (by simp)
  | ok r1 =>
    obtain ⟨s1, dbids⟩ := r1
    rw [h1] at h
    simp only at h
    cases h2 : dydxApplyList pair m.offset Side.ask m.asks s1 with
    | error e2 => rw [h2] at h; exact absurd h (by simp)
    | ok r2 =>
      obtain ⟨s3, dasks⟩ := r2
      rw [h2] at h
      simp only at h
      obtain ⟨rec1, hrec1, hle1⟩ :=
        dydxApplyList_token_mono pair m.offset Side.bid m.bids s s1 dbids h1 pr q rec hq
      obtain ⟨rec2, hrec2, hle2⟩ :=
        dydxApplyList_token_mono pair m.offset Side.ask m.asks s1 s3 dasks h2 pr q rec1 hrec1
      have hs : s2 = s3 := by
        by_cases hemp : dbids = [] ∧ dasks = []
        · rw [if_pos hemp] at h
          simp only [Except.ok.injEq, Prod.mk.injEq] at h
          exact h.1.symm
        · rw [if_neg hemp] at h
          cases hbk : lookupEntry pair s3.l2book with
          | none => rw [hbk] at h; exact absurd h (by simp)
          | some bk =>
            rw [hbk] at h
            simp only [Except.ok.injEq, Prod.mk.injEq] at h
            exact h.1.symm
      rw [hs]
      exact ⟨rec2, hrec2, le_trans hle1 hle2⟩

/-- C6: along any successfully handled sequence of dYdX channel_data
messages, the offset-ledger token recorded for any price of any pair
never decreases: an applied update only replaces a recorded token by a
greater-or-equal one. -/
theorem dydx_token_monotonic (pair : String) (ms : List DydxChannelData)
    (s s2 : DydxState) (h : dydxRunChannel pair ms s = Except.ok s2)
    (pr : String) (q : Rat) (rec : Int) (hq : tokenAt pr q s = some rec) :
    ∃ rec2, tokenAt pr q s2 = some rec2 ∧ rec ≤ rec2 := by
  induction ms generalizing s rec with
  | nil =>
    unfold dydxRunChannel at h
    simp only [Except.ok.injEq] at h
    rw [← h]
    exact ⟨rec, hq, le_refl rec⟩
  | cons m rest ih =>
    unfold dydxRunChannel at h
    cases h1 : dydxChannelData pair m s with
    | error e2 => rw [h1] at h; exact absurd h (by simp)
    | ok r1 =>
      obtain ⟨s1, ev⟩ := r1
      rw [h1] at h
      simp only at h
      obtain ⟨rec1, hrec1, hle1⟩ :=
        dydxChannelData_token_mono pair m s s1 ev h1 pr q rec hq
      obtain ⟨rec2, hrec2, hle2⟩ := ih s1 h rec1 hrec1
      exact ⟨rec2, hrec2, le_trans hle1 hle2⟩

/-- Witness for C6 at a concrete run: from a recorded token 3 at price 5,
handling an applied update with offset 7 leaves a token at least 3. -/
theorem dydx_token_monotonic_witness :
    ∃ rec2, tokenAt "S" 5
        ⟨[("S", ⟨[(5, 1)], []⟩)], [("S", [(5, 7)])]⟩ = some rec2 ∧ (3 : Int) ≤ rec2 :=
  dydx_token_monotonic "S" [⟨7, [(5, 1)], []⟩]
    ⟨[("S", ⟨[(5, 9)], []⟩)], [("S", [(5, 3)])]⟩
    ⟨[("S", ⟨[(5, 1)], []⟩)], [("S", [(5, 7)])]⟩ (by decide) "S" 5 3 (by decide)

theorem dydxSnapSide_pos (entries : List SnapEntry) :
    ∀ (led : Ledger) (bk : BookSide),
      (∀ p sz, lookupEntry p bk = some sz → 0 < sz) →
      ∀ p sz, lookupEntry p (dydxSnapSide entries led bk).2 = some sz → 0 < sz := by
  induction entries with
  | nil =>
    intro led bk hbk p sz hp
    exact hbk p sz hp
  | cons e rest ih =>
    intro led bk hbk p sz hp
    simp only [dydxSnapSide] at hp
    refine ih _ _ ?_ p sz hp
    intro p2 sz2 h2
    by_cases hsz : 0 < e.size
    · rw [if_pos hsz] at h2
      rcases lookupEntry_setEntry_cases h2 with ⟨hpk, hv⟩ | hold
      · rw [hv]
        exact hsz
      · exact hbk p2 sz2 hold
    · rw [if_neg hsz] at h2
      exact hbk p2 sz2 h2

theorem dydxSnapSide_ledger_pres (entries : List SnapEntry) :
    ∀ (led : Ledger) (bk : BookSide) (p : Rat), (lookupEntry p led).isSome →
      (lookupEntry p (dydxSnapSide entries led bk).1).isSome := by
  induction entries with
  | nil =>
    intro led bk p h
    exact h
  | cons e rest ih =>
    intro led bk p h
    simp only [dydxSnapSide]
    exact ih _ _ p (lookupEntry_setEntry_isSome e.price p e.offset led h)

theorem dydxSnapSide_ledger_mem (entries : List SnapEntry) :
    ∀ (led : Ledger) (bk : BookSide) (e : SnapEntry), e ∈ entries →
      (lookupEntry e.price (dydxSnapSide entries led bk).1).isSome := by
  induction entries with
  | nil =>
    intro led bk e he
    cases he
  | cons e2 rest ih =>
    intro led bk e he
    simp only [dydxSnapSide]
    rcases List.mem_cons.mp he with heq | hmem
    · subst heq
      refine dydxSnapSide_ledger_pres rest _ _ e.price ?_
      rw [lookupEntry_setEntry_self]
      rfl
    · exact ih _ _ e hmem

theorem dydxSnapSide_book_keys (entries : List SnapEntry) :
    ∀ (led : Ledger) (bk : BookSide) (p : Rat),
      (lookupEntry p (dydxSnapSide entries led bk).2).isSome →
      (∃ e, e ∈ entries ∧ e.price = p) ∨ (lookupEntry p bk).isSome := by
  induction entries with
  | nil =>
    intro led bk p h
    exact Or.inr h
  | cons e2 rest ih =>
    intro led bk p h
    simp only [dydxSnapSide] at h
    rcases ih _ _ p h with ⟨e, he, hp⟩ | hacc
    · exact Or.inl ⟨e, List.mem_cons_of_mem _ he, hp⟩
    · by_cases hsz : 0 < e2.size
      · rw [if_pos hsz] at hacc
        rcases (lookupEntry_setEntry_isSome_iff _ _ _ _).mp hacc with hpk | hold
        · exact Or.inl ⟨e2, List.mem_cons_self _ _, hpk.symm⟩
        · exact Or.inr hold
      · rw [if_neg hsz] at hacc
        exact Or.inr hacc

/-- C2: handling a dYdX snapshot replaces the stored book and ledger for
the symbol with ones built from the message alone (the previous contents
are discarded), installs only the levels with size strictly greater
than 0, seeds the ledger with every level's token, and emits exactly one
event whose delta is None and whose payload is the full resulting
book. -/
theorem dydx_snapshot_replace (pair : String) (m : DydxSnapshot) (s : DydxState) :
    dydxBook pair (DydxBookMsg.snapshot m) s =
      Except.ok
        (⟨setEntry pair (dydxSnapshotApply m).2 s.l2book,
          setEntry pair (dydxSnapshotApply m).1 s.offsets⟩,
         some ⟨(dydxSnapshotApply m).2, none⟩) ∧
    lookupEntry pair (setEntry pair (dydxSnapshotApply m).2 s.l2book) =
      some (dydxSnapshotApply m).2 ∧
    lookupEntry pair (setEntry pair (dydxSnapshotApply m).1 s.offsets) =
      some (dydxSnapshotApply m).1 ∧
    (∀ p sz, lookupEntry p (dydxSnapshotApply m).2.bids = some sz → 0 < sz) ∧
    (∀ p sz, lookupEntry p (dydxSnapshotApply m).2.asks = some sz → 0 < sz) ∧
    (∀ e, e ∈ m.bids ++ m.asks → (lookupEntry e.price (dydxSnapshotApply m).1).isSome) := by
  refine ⟨rfl, lookupEntry_setEntry_self _ _ _, lookupEntry_setEntry_self _ _ _, ?_, ?_, ?_⟩
  · intro p sz hp
    refine dydxSnapSide_pos m.bids [] [] ?_ p sz hp
    intro p2 sz2 h2
    exact absurd h2 (by simp [lookupEntry])
  · intro p sz hp
    refine dydxSnapSide_pos m.asks (dydxSnapSide m.bids [] []).1 [] ?_ p sz hp
    intro p2 sz2 h2
    exact absurd h2 (by simp [lookupEntry])
  · intro e he
    rcases List.mem_append.mp he with hb | ha
    · exact dydxSnapSide_ledger_pres m.asks _ _ e.price
        (dydxSnapSide_ledger_mem m.bids [] [] e hb)
    · exact dydxSnapSide_ledger_mem m.asks _ [] e ha

/-- Witness for C2 at the spec's Scenario A snapshot (bid 100 size 2
token 5, ask 101 size 3 token 5): the installed bid size is positive. -/
theorem dydx_snapshot_replace_witness :
    (0 : Rat) < 2 :=
  (dydx_snapshot_replace "S" ⟨[⟨100, 2, 5⟩], [⟨101, 3, 5⟩]⟩ ⟨[], []⟩).2.2.2.1
    100 2 (by decide)

/-- C9: after a dYdX snapshot the ledger holds an entry for every level
of the message, including size-0 levels absent from the book, so the
ledger's price set can strictly contain the book's (witnessed by a
snapshot whose only level has size 0), and a later delta at such a price
with a token strictly below the seeded one is discarded without any
mutation. -/
theorem dydx_snapshot_ledger_coverage (pair : String) (m : DydxSnapshot) (s : DydxState) :
    (∀ e, e ∈ m.bids ++ m.asks → (lookupEntry e.price (dydxSnapshotApply m).1).isSome) ∧
    (∀ p, ((lookupEntry p (dydxSnapshotApply m).2.bids).isSome ∨
           (lookupEntry p (dydxSnapshotApply m).2.asks).isSome) →
      (lookupEntry p (dydxSnapshotApply m).1).isSome) ∧
    ((lookupEntry 5 (dydxSnapshotApply ⟨[⟨5, 0, 7⟩], []⟩).1).isSome ∧
      lookupEntry 5 (dydxSnapshotApply ⟨[⟨5, 0, 7⟩], []⟩).2.bids = none ∧
      lookupEntry 5 (dydxSnapshotApply ⟨[⟨5, 0, 7⟩], []⟩).2.asks = none) ∧
    (∀ price rec offset side amount,
      lookupEntry price (dydxSnapshotApply m).1 = some rec → offset < rec →
      dydxApplyOne pair offset side price amount (dydxSnapshot pair m s).1 =
        Except.ok ((dydxSnapshot pair m s).1, none)) := by
  refine ⟨?_, ?_, by decide, ?_⟩
  · intro e he
    rcases List.mem_append.mp he with hb | ha
    · exact dydxSnapSide_ledger_pres m.asks _ _ e.price
        (dydxSnapSide_ledger_mem m.bids [] [] e hb)
    · exact dydxSnapSide_ledger_mem m.asks _ [] e ha
  · intro p hp
    rcases hp with hb | ha
    · rcases dydxSnapSide_book_keys m.bids [] [] p hb with ⟨e, he, hep⟩ | habs
      · rw [← hep]
        exact dydxSnapSide_ledger_pres m.asks _ _ e.price
          (dydxSnapSide_ledger_mem m.bids [] [] e he)
      · exact absurd habs (by simp [lookupEntry])
    · rcases dydxSnapSide_book_keys m.asks (dydxSnapSide m.bids [] []).1 [] p ha with
        ⟨e, he, hep⟩ | habs
      · rw [← hep]
        exact dydxSnapSide_ledger_mem m.asks _ [] e he
      · exact absurd habs (by simp [lookupEntry])
  · intro price rec offset side amount hrec hlt
    refine dydxApplyOne_stale pair offset side price amount _ (dydxSnapshotApply m).1
      rec ?_ hrec hlt
    exact lookupEntry_setEntry_self _ _ _

/-- Witness for C9: after the snapshot whose only level is bid price 5
size 0 token 7, a bid delta at price 5 with token 3 is returned
unapplied with the state unchanged. -/
theorem dydx_snapshot_ledger_coverage_witness :
    dydxApplyOne "S" 3 Side.bid 5 1 (dydxSnapshot "S" ⟨[⟨5, 0, 7⟩], []⟩ ⟨[], []⟩).1 =
      Except.ok ((dydxSnapshot "S" ⟨[⟨5, 0, 7⟩], []⟩ ⟨[], []⟩).1, none) :=
  (dydx_snapshot_ledger_coverage "S" ⟨[⟨5, 0, 7⟩], []⟩ ⟨[], []⟩).2.2.2
    5 7 3 Side.bid 1 (by decide) (by decide)

theorem dydxApplyOne_missing (pair : String) (offset : Int) (side : Side)
    (price amount : Rat) (s : DydxState)
    (h : lookupEntry pair s.offsets = none) :
    dydxApplyOne pair offset side price amount s = Except.error KeyErr.keyError := by
  unfold dydxApplyOne
  rw [h]

theorem dydxApplyOne_total (pair : String) (offset : Int) (side : Side)
    (price amount : Rat) (s : DydxState)
    (h1 : (lookupEntry pair s.offsets).isSome)
    (h2 : (lookupEntry pair s.l2book).isSome) :
    ∃ s1 d, dydxApplyOne pair offset side price amount s = Except.ok (s1, d) ∧
      (lookupEntry pair s1.offsets).isSome ∧ (lookupEntry pair s1.l2book).isSome := by
  obtain ⟨led, hled⟩ := Option.isSome_iff_exists.mp h1
  obtain ⟨bk, hbk⟩ := Option.isSome_iff_exists.mp h2
  by_cases hstale : ∃ rec, lookupEntry price led = some rec ∧ offset < rec
  · obtain ⟨rec, hrec, hlt⟩ := hstale
    exact ⟨s, none,
      dydxApplyOne_stale pair offset side price amount s led rec hled hrec hlt, h1, h2⟩
  · have hf : ∀ rec, lookupEntry price led = some rec → rec ≤ offset := by
      intro rec hrec
      by_contra hcon
      exact hstale ⟨rec, hrec, lt_of_not_le hcon⟩
    rw [dydxApplyOne_fresh pair offset side price amount s led hled hf,
        dydxApplyFresh_eq pair offset side price amount led s bk hbk]
    refine ⟨_, _, rfl, ?_, ?_⟩
    · simp only
      rw [lookupEntry_setEntry_self]
      rfl
    · simp only
      rw [lookupEntry_setEntry_self]
      rfl

theorem dydxApplyList_total (pair : String) (offset : Int) (side : Side)
    (entries : List (Rat × Rat)) :
    ∀ (s : DydxState),
      (lookupEntry pair s.offsets).isSome → (lookupEntry pair s.l2book).isSome →
      ∃ s2 ds, dydxApplyList pair offset side entries s = Except.ok (s2, ds) ∧
        (lookupEntry pair s2.offsets).isSome ∧ (lookupEntry pair s2.l2book).isSome := by
  induction entries with
  | nil =>
    intro s h1 h2
    exact ⟨s, [], rfl, h1, h2⟩
  | cons e rest ih =>
    intro s h1 h2
    obtain ⟨price, amount⟩ := e
    obtain ⟨s1, d, hap, hs1o, hs1b⟩ := dydxApplyOne_total pair offset side price amount s h1 h2
    obtain ⟨s2, ds, hal, hs2o, hs2b⟩ := ih s1 hs1o hs1b
    refine ⟨s2, d.toList ++ ds, ?_, hs2o, hs2b⟩
    unfold dydxApplyList
    rw [hap]
    simp only
    rw [hal]

/-- C10: handling a dYdX channel_data message for a symbol with no
offset ledger (no snapshot since the last reset) raises a key-lookup
error as soon as the message carries any entry, creating no book state;
once the snapshot has installed the ledger and book for the symbol, the
handler always succeeds. -/
theorem dydx_channel_requires_snapshot (pair : String) (m : DydxChannelData) (s : DydxState) :
    (lookupEntry pair s.offsets = none → ¬(m.bids = [] ∧ m.asks = []) →
      dydxChannelData pair m s = Except.error KeyErr.keyError) ∧
    ((lookupEntry pair s.offsets).isSome → (lookupEntry pair s.l2book).isSome →
      ∃ r, dydxChannelData pair m s = Except.ok r) := by
  constructor
  · intro hno hne
    unfold dydxChannelData
    cases hb : m.bids with
    | cons b brest =>
      obtain ⟨price, amount⟩ := b
      have herr := dydxApplyOne_missing pair m.offset Side.bid price amount s hno
      simp [dydxApplyList, herr]
    | nil =>
      cases ha : m.asks with
      | nil => exact absurd ⟨hb, ha⟩ hne
      | cons a arest =>
        obtain ⟨price, amount⟩ := a
        have herr := dydxApplyOne_missing pair m.offset Side.ask price amount s hno
        simp [dydxApplyList, herr]
  · intro h1 h2
    obtain ⟨s1, dbids, hb1, hs1o, hs1b⟩ :=
      dydxApplyList_total pair m.offset Side.bid m.bids s h1 h2
    obtain ⟨s2, dasks, ha1, hs2o, hs2b⟩ :=
      dydxApplyList_total pair m.offset Side.ask m.asks s1 hs1o hs1b
    unfold dydxChannelData
    rw [hb1]
    simp only
    rw [ha1]
    simp only
    by_cases hemp : dbids = [] ∧ dasks = []
    · rw [if_pos hemp]
      exact ⟨(s2, none), rfl⟩
    · rw [if_neg hemp]
      obtain ⟨bk, hbk⟩ := Option.isSome_iff_exists.mp hs2b
      rw [hbk]
      exact ⟨(s2, some ⟨bk, some ⟨dbids, dasks⟩⟩), rfl⟩

/-- Witness for C10: with empty adapter state (no snapshot yet), a
channel_data bid update raises the key-lookup error. -/
theorem dydx_channel_requires_snapshot_witness :
    dydxChannelData "S" ⟨1, [(5, 2)], []⟩ ⟨[], []⟩ = Except.error KeyErr.keyError :=
  (dydx_channel_requires_snapshot "S" ⟨1, [(5, 2)], []⟩ ⟨[], []⟩).1 (by decide) (by decide)

theorem upbitBids_keys (units : List UpbitUnit) :
    ∀ (acc : BookSide) (p : Rat),
      (lookupEntry p (upbitBids units acc)).isSome ↔
      ((∃ u, u ∈ units ∧ u.bp = p ∧ 0 < u.bp) ∨ (lookupEntry p acc).isSome) := by
  induction units with
  | nil =>
    intro acc p
    simp [upbitBids]
  | cons u rest ih =>
    intro acc p
    simp only [upbitBids]
    rw [ih]
    constructor
    · rintro (⟨u2, hu2, hbp, hpos⟩ | hacc)
      · exact Or.inl ⟨u2, List.mem_cons_of_mem _ hu2, hbp, hpos⟩
      · by_cases hpos : 0 < u.bp
        · rw [if_pos hpos] at hacc
          rcases (lookupEntry_setEntry_isSome_iff _ _ _ _).mp hacc with hpk | hold
          · exact Or.inl ⟨u, List.mem_cons_self _ _, hpk.symm, hpos⟩
          · exact Or.inr hold
        · rw [if_neg hpos] at hacc
          exact Or.inr hacc
    · rintro (⟨u2, hu2, hbp, hpos⟩ | hacc)
      · rcases List.mem_cons.mp hu2 with heq | hmem
        · subst heq
          right
          rw [if_pos hpos]
          exact (lookupEntry_setEntry_isSome_iff _ _ _ _).mpr (Or.inl hbp.symm)
        · exact Or.inl ⟨u2, hmem, hbp, hpos⟩
      · right
        by_cases hpos2 : 0 < u.bp
        · rw [if_pos hpos2]
          exact (lookupEntry_setEntry_isSome_iff _ _ _ _).mpr (Or.inr hacc)
        · rw [if_neg hpos2]
          exact hacc

theorem upbitAsks_keys (units : List UpbitUnit) :
    ∀ (acc : BookSide) (p : Rat),
      (lookupEntry p (upbitAsks units acc)).isSome ↔
      ((∃ u, u ∈ units ∧ u.ap = p ∧ 0 < u.ap) ∨ (lookupEntry p acc).isSome) := by
  induction units with
  | nil =>
    intro acc p
    simp [upbitAsks]
  | cons u rest ih =>
    intro acc p
    simp only [upbitAsks]
    rw [ih]
    constructor
    · rintro (⟨u2, hu2, hap, hpos⟩ | hacc)
      · exact Or.inl ⟨u2, List.mem_cons_of_mem _ hu2, hap, hpos⟩
      · by_cases hpos : 0 < u.ap
        · rw [if_pos hpos] at hacc
          rcases (lookupEntry_setEntry_isSome_iff _ _ _ _).mp hacc with hpk | hold
          · exact Or.inl ⟨u, List.mem_cons_self _ _, hpk.symm, hpos⟩
          · exact Or.inr hold
        · rw [if_neg hpos] at hacc
          exact Or.inr hacc
    · rintro (⟨u2, hu2, hap, hpos⟩ | hacc)
      · rcases List.mem_cons.mp hu2 with heq | hmem
        · subst heq
          right
          rw [if_pos hpos]
          exact (lookupEntry_setEntry_isSome_iff _ _ _ _).mpr (Or.inl hap.symm)
        · exact Or.inl ⟨u2, hmem, hap, hpos⟩
      · right
        by_cases hpos2 : 0 < u.ap
        · rw [if_pos hpos2]
          exact (lookupEntry_setEntry_isSome_iff _ _ _ _).mpr (Or.inr hacc)
        · rw [if_neg hpos2]
          exact hacc

/-- Counterexample to C3 as stated: a unit with bid price 1 and bid
size 0 (positive price, non-positive size) is installed as a zero-size
level, because the comprehension filters only on the price. -/
theorem upbit_zero_size_installed :
    (upbitBook "S" [⟨2, 3, 1, 0⟩] ⟨[]⟩).2.book.bids = [(1, 0)] ∧
    lookupEntry 1 (upbitBook "S" [⟨2, 3, 1, 0⟩] ⟨[]⟩).2.book.bids = some 0 := by decide

/-- C3 amended: every Upbit orderbook message wholesale-replaces both
sides of the pair's book with the message's units filtered by positive
price only (sizes are installed verbatim, zero or negative sizes
included), and always emits exactly one event whose delta is None and
whose payload is the full replaced book. -/
theorem upbit_full_replace (pair : String) (units : List UpbitUnit) (s : UpbitState) :
    upbitBook pair units s =
      (⟨setEntry pair ⟨upbitBids units [], upbitAsks units []⟩ s.l2book⟩,
       ⟨⟨upbitBids units [], upbitAsks units []⟩, none⟩) ∧
    (∀ p, (lookupEntry p (upbitBids units [])).isSome ↔
      ∃ u, u ∈ units ∧ u.bp = p ∧ 0 < u.bp) ∧
    (∀ p, (lookupEntry p (upbitAsks units [])).isSome ↔
      ∃ u, u ∈ units ∧ u.ap = p ∧ 0 < u.ap) := by
  refine ⟨rfl, ?_, ?_⟩
  · intro p
    rw [upbitBids_keys units [] p]
    simp [lookupEntry]
  · intro p
    rw [upbitAsks_keys units [] p]
    simp [lookupEntry]

/-- Witness for C3 (amended) at the spec's Scenario C shape: in a
message holding one unit with ask price 0 (filtered out) and bid price 1,
the bid level is present in the replaced book. -/
theorem upbit_full_replace_witness :
    (lookupEntry 1 (upbitBids [⟨0, 3, 1, 2⟩] [])).isSome :=
  ((upbit_full_replace "S" [⟨0, 3, 1, 2⟩] ⟨[]⟩).2.1 1).mpr
    ⟨⟨0, 3, 1, 2⟩, by simp, by decide, by decide⟩

/-- C7: a trade message carrying N wire records yields exactly N trade
events, one per record, in wire order (the i-th emission normalizes the
i-th record); each dYdX emission maps side BUY/SELL from the wire
vocabulary and carries the exact decimal size and price with the
normalized createdAt timestamp; the single Upbit emission maps BID to
buy, carries tv and tp, and divides the millisecond timestamp ttms
by 1000. -/
theorem trade_batch_normalization :
    (∀ (f : Rat → Rat) (ts : List DydxWireTrade),
      (dydxTradeBatch f ts).length = ts.length) ∧
    (∀ (f : Rat → Rat) (ts : List DydxWireTrade) (i : Nat),
      (dydxTradeBatch f ts)[i]? = ts[i]?.map (dydxTradeOne f)) ∧
    (∀ (f : Rat → Rat) (t : DydxWireTrade),
      dydxTradeOne f t =
        ⟨if t.side = "BUY" then TradeSide.buy else TradeSide.sell,
         t.size, t.price, f t.createdAt, none⟩) ∧
    (∀ m : UpbitWireTrade,
      upbitTrade m =
        [⟨if m.ab = "BID" then TradeSide.buy else TradeSide.sell,
          m.tv, m.tp, m.ttms / 1000, some m.sid⟩]) := by
  refine ⟨?_, ?_, fun f t => rfl, fun m => rfl⟩
  · intro f ts
    exact List.length_map ts (dydxTradeOne f)
  · intro f ts i
    exact List.getElem?_map (dydxTradeOne f) ts i

/-- C8 is refuted for Upbit: its subscribe writes the payload without
touching the book state, so a book populated before resubscription is
still populated afterwards, contradicting the claim that every
adapter's subscribe first clears the per-symbol book state. -/
theorem upbit_subscribe_no_reset :
    ((upbitSubscribe "l2_book" "trades" [] ⟨[("S", ⟨[(1, 2)], []⟩)]⟩).1).l2book ≠ [] := by
  decide

/-- C8 amended: dYdX's subscribe first clears both the per-symbol book
dict and the offset ledger dict (an idempotent reset), while Upbit's
subscribe leaves its book state unchanged (no reset is performed). -/
theorem subscribe_reset_semantics (bookChannel tradesChan : String)
    (sub : List (String × List String)) (s : DydxState) (u : UpbitState) :
    (dydxSubscribe bookChannel sub s).1 = ⟨[], []⟩ ∧
    dydxReset (dydxReset s) = dydxReset s ∧
    (upbitSubscribe bookChannel tradesChan sub u).1 = u := by
  exact ⟨rfl, rfl, rfl⟩
